import Mathlib

/-!
Shallow embedding of the concentrated-liquidity swap core
(`x/concentrated-liquidity/swaps.go`) over exact rational arithmetic.

`sdk.Dec` values are embedded as `ℚ`, `sdk.Int` as `ℤ`.  The helper
functions of the `types` package and of the keeper that are not part of the
source under scrutiny (`ComputeSwapStep`, `PriceToTick`, `TickToSqrtPrice`,
`NextInitializedTick`, `CrossTick`, `ApproxSqrt`, `Liquidity0`,
`Liquidity1`, `MinSqrtRatio`, `MaxSqrtRatio`, the bank `SendCoins`
primitive) are abstracted into an environment record `Env`, so the theorems
below quantify over every possible behaviour of those collaborators.
-/

namespace Osmosis

/-- A coin: denomination plus integer amount (`sdk.Coin`). -/
structure Coin where
  denom : String
  amount : ℤ
deriving DecidableEq, Repr

/-- A concentrated-liquidity pool as the swap core reads it:
two ordered asset denominations, current square-root price, current tick
and current active liquidity, plus the pool account address. -/
structure Pool where
  id : ℕ
  token0 : String
  token1 : String
  currentSqrtPrice : ℚ
  currentTick : ℤ
  liquidity : ℚ
  address : String
deriving DecidableEq, Repr

/-- The persistent pool store, keyed by pool id (`getPoolById` / `setPool`). -/
def Store : Type := ℕ → Option Pool

/-- The bank is a ledger of executed transfers (from, to, coin). -/
def BankState : Type := List (String × String × Coin)

/-- Abstract environment for the collaborators of `swaps.go` that live
outside the analysed source: tick index, price/tick codec, swap-step
calculator, square-root approximation, protocol sqrt-ratio bounds,
liquidity-from-amount helpers and the transfer admissibility predicate. -/
structure Env where
  nextInitializedTick : ℕ → ℤ → Bool → Option ℤ
  crossTick : ℕ → ℤ → Option ℚ
  tickToSqrtPrice : ℤ → Option ℚ
  priceToTick : ℚ → ℤ
  computeSwapStep : ℚ → ℚ → ℚ → ℚ → Bool → ℚ × ℚ × ℚ
  approxSqrt : ℚ → Option ℚ
  minSqrtRatio : ℚ
  maxSqrtRatio : ℚ
  liquidity0 : ℤ → ℚ → ℚ → ℚ
  liquidity1 : ℤ → ℚ → ℚ → ℚ
  transferOk : String → String → Coin → Bool

/-- Error outcomes of the swap core, one constructor per `return err` site. -/
inductive SwapErr
  | poolNotFound
  | sqrtPriceLimitCalc
  | invalidPriceLimit
  | tokenInMismatch
  | tokenOutMismatch
  | sameDenomCalc
  | noMoreTicks
  | tickToSqrtPriceFail
  | crossTickFail
  | sameDenomTrade
  | nonPositiveOut
  | ltMinOut
  | tokenInExceedsProvided
  | transferFailed
  | noLiquidityAvailable
  | minPriceTooHigh
  | maxPriceTooLow
  | minPriceSqrtCalc
  | maxPriceSqrtCalc
  | outOfFuel
deriving DecidableEq, Repr

/-- `sdk.Dec.RoundInt`: round to the nearest integer, ties on the magnitude
resolved to the even integer (cosmos-sdk `chopPrecisionAndRound`, bankers
rounding). -/
def bankersRoundInt (q : ℚ) : ℤ :=
  let f : ℤ := ⌊q⌋
  let r : ℚ := q - f
  if r < 1/2 then f
  else if 1/2 < r then f + 1
  else if f % 2 = 0 then f else f + 1

/-- `sdk.Dec.TruncateInt`: round toward zero. -/
def truncateInt (q : ℚ) : ℤ :=
  if 0 ≤ q then ⌊q⌋ else ⌈q⌉

/-- Modelled from the spec: `types.AddLiquidity` is not under `src/`;
per §4.3 the tick's signed net-liquidity delta is "added to the running
liquidity total", so it is embedded as rational addition. -/
def addLiquidity (a b : ℚ) : ℚ := a + b

/-- Modelled from the spec: `pool.ApplySwap` is not under `src/`; per §4.6
the Swap Applier "takes the orchestrator's committed tick/liquidity/√price
and writes them back to pool storage". -/
def applySwap (p : Pool) (newLiquidity : ℚ) (newTick : ℤ) (newSqrtPrice : ℚ) : Pool :=
  { p with liquidity := newLiquidity, currentTick := newTick, currentSqrtPrice := newSqrtPrice }

/-- `setPool`: persist a pool under its id. -/
def setPool (store : Store) (p : Pool) : Store :=
  fun i => if i = p.id then some p else store i

/-- One bank transfer (`bankKeeper.SendCoins`): appends to the ledger when
the environment admits the transfer, fails otherwise. -/
def sendCoins (env : Env) (bank : BankState) (src dst : String) (c : Coin) : Option BankState :=
  if env.transferOk src dst c then some ((src, dst, c) :: bank) else none

/-- The transient `SwapState` of the exact-in orchestrator
(`CalcOutAmtGivenIn`), all five fields initialized. -/
structure SwapState where
  amountSpecifiedRemaining : ℚ
  amountCalculated : ℚ
  sqrtPrice : ℚ
  tick : ℤ
  liquidity : ℚ
deriving DecidableEq, Repr

/-- The exact-in stopping tolerance `sdk.MustNewDecFromStr("0.0000001")`. -/
def epsExactIn : ℚ := 1/10000000

/-- The exact-out stopping tolerance `sdk.NewDecWithPrec(1, 6)`. -/
def epsExactOut : ℚ := 1/1000000

/-- The exact-in loop guard (swaps.go line 143): iterate while the
remaining specified amount exceeds `0.0000001` and the working sqrt price
has not reached the sqrt price limit. -/
def calcOutLoopCond (s : SwapState) (sqrtPriceLimit : ℚ) : Bool :=
  decide (epsExactIn < s.amountSpecifiedRemaining) && decide (s.sqrtPrice ≠ sqrtPriceLimit)

/-- One iteration of the exact-in loop body (swaps.go lines 144-213):
find the next initialized tick, clamp its sqrt price to the limit, run the
swap-step calculator, update the running amounts, and either cross the
tick (when the step landed exactly on the tick's sqrt price) or recompute
the working tick from the new sqrt price. -/
def calcOutIter (env : Env) (poolId pid : ℕ) (zeroForOne : Bool) (sqrtPriceLimit : ℚ)
    (s : SwapState) : Except SwapErr SwapState :=
  let sqrtPriceStart := s.sqrtPrice
  match env.nextInitializedTick poolId s.tick zeroForOne with
  | none => .error .noMoreTicks
  | some nextTick =>
    match env.tickToSqrtPrice nextTick with
    | none => .error .tickToSqrtPriceFail
    | some nextSqrtPrice =>
      let sqrtPriceTarget :=
        if (zeroForOne && decide (nextSqrtPrice < sqrtPriceLimit))
            || (!zeroForOne && decide (sqrtPriceLimit < nextSqrtPrice)) then sqrtPriceLimit
        else nextSqrtPrice
      let step := env.computeSwapStep s.sqrtPrice sqrtPriceTarget s.liquidity
        s.amountSpecifiedRemaining zeroForOne
      let sqrtPrice := step.1
      let amountIn := step.2.1
      let amountOut := step.2.2
      let s1 : SwapState := { s with
        sqrtPrice := sqrtPrice,
        amountSpecifiedRemaining := s.amountSpecifiedRemaining - amountIn,
        amountCalculated := s.amountCalculated + amountOut }
      if nextSqrtPrice = sqrtPrice then
        match env.crossTick pid nextTick with
        | none => .error .crossTickFail
        | some liquidityNetRaw =>
          let liquidityNet := if zeroForOne then -liquidityNetRaw else liquidityNetRaw
          let newLiquidity := addLiquidity s1.liquidity liquidityNet
          let newTick := if zeroForOne then nextTick - 1 else nextTick
          .ok { s1 with liquidity := newLiquidity, tick := newTick }
      else if sqrtPriceStart ≠ sqrtPrice then
        .ok { s1 with tick := env.priceToTick (sqrtPrice ^ 2) }
      else
        .ok s1

/-- The exact-in loop, fueled: Go's `for` loop has no iteration bound, so
a fuel parameter makes the embedding total; exhausting it is reported as a
distinguished `outOfFuel` outcome. -/
def calcOutLoop (env : Env) (poolId pid : ℕ) (zeroForOne : Bool) (sqrtPriceLimit : ℚ) :
    ℕ → SwapState → Except SwapErr SwapState
  | 0, s => if calcOutLoopCond s sqrtPriceLimit then .error .outOfFuel else .ok s
  | fuel + 1, s =>
    if calcOutLoopCond s sqrtPriceLimit then
      match calcOutIter env poolId pid zeroForOne sqrtPriceLimit s with
      | .error e => .error e
      | .ok s' => calcOutLoop env poolId pid zeroForOne sqrtPriceLimit fuel s'
    else .ok s

/-- The successful result of `CalcOutAmtGivenIn`: realized input and
output coins, final tick, liquidity and sqrt price. -/
structure CalcOutResult where
  tokenIn : Coin
  tokenOut : Coin
  updatedTick : ℤ
  updatedLiquidity : ℚ
  updatedSqrtPrice : ℚ
deriving DecidableEq, Repr

/-- `CalcOutAmtGivenIn` (swaps.go lines 86-225): the exact-in orchestrator.
Fetches the pool, deducts the fee up front, validates the price limit and
denominations, runs the traversal loop, and converts the accumulated
amounts to integers (`RoundInt` for the realized input, `TruncateInt` for
the output). -/
def CalcOutAmtGivenIn (env : Env) (store : Store) (tokenInMin : Coin) (tokenOutDenom : String)
    (swapFee priceLimit : ℚ) (poolId : ℕ) (fuel : ℕ) : Except SwapErr CalcOutResult :=
  match store poolId with
  | none => .error .poolNotFound
  | some p =>
    let asset0 := p.token0
    let asset1 := p.token1
    let tokenAmountInAfterFee : ℚ := (tokenInMin.amount : ℚ) * (1 - swapFee)
    let zeroForOne := tokenInMin.denom = asset0
    let curSqrtPrice := p.currentSqrtPrice
    match env.approxSqrt priceLimit with
    | none => .error .sqrtPriceLimitCalc
    | some sqrtPriceLimit =>
      if (zeroForOne ∧ (p.currentSqrtPrice < sqrtPriceLimit ∨ sqrtPriceLimit < env.minSqrtRatio))
          ∨ (¬zeroForOne ∧ (sqrtPriceLimit < p.currentSqrtPrice ∨ env.maxSqrtRatio < sqrtPriceLimit)) then
        .error .invalidPriceLimit
      else if tokenInMin.denom ≠ asset0 ∧ tokenInMin.denom ≠ asset1 then
        .error .tokenInMismatch
      else if tokenOutDenom ≠ asset0 ∧ tokenOutDenom ≠ asset1 then
        .error .tokenOutMismatch
      else if tokenInMin.denom = tokenOutDenom then
        .error .sameDenomCalc
      else
        let s0 : SwapState := {
          amountSpecifiedRemaining := tokenAmountInAfterFee,
          amountCalculated := 0,
          sqrtPrice := curSqrtPrice,
          tick := env.priceToTick (curSqrtPrice ^ 2),
          liquidity := p.liquidity }
        match calcOutLoop env poolId p.id zeroForOne sqrtPriceLimit fuel s0 with
        | .error e => .error e
        | .ok s =>
          let amt0 := bankersRoundInt (tokenAmountInAfterFee - s.amountSpecifiedRemaining)
          let amt1 := truncateInt s.amountCalculated
          .ok {
            tokenIn := ⟨tokenInMin.denom, amt0⟩,
            tokenOut := ⟨tokenOutDenom, amt1⟩,
            updatedTick := s.tick,
            updatedLiquidity := s.liquidity,
            updatedSqrtPrice := s.sqrtPrice }

/-- `SwapOutAmtGivenIn` (swaps.go lines 228-254): runs the exact-in
calculation, then commits the new pool state via `ApplySwap` and `setPool`,
and only afterwards checks that the calculated input does not exceed the
provided input.  Returns the result together with the (possibly updated)
store. -/
def SwapOutAmtGivenIn (env : Env) (store : Store) (tokenIn : Coin) (tokenOutDenom : String)
    (swapFee priceLimit : ℚ) (poolId : ℕ) (fuel : ℕ) : Except SwapErr Coin × Store :=
  match CalcOutAmtGivenIn env store tokenIn tokenOutDenom swapFee priceLimit poolId fuel with
  | .error e => (.error e, store)
  | .ok r =>
    match store poolId with
    | none => (.error .poolNotFound, store)
    | some pool =>
      let pool' := applySwap pool r.updatedLiquidity r.updatedTick r.updatedSqrtPrice
      let store' := setPool store pool'
      if r.tokenIn.amount > tokenIn.amount then (.error .tokenInExceedsProvided, store')
      else (.ok r.tokenOut, store')

/-- `updatePoolForSwap` (swaps.go lines 394-422): the two-leg balance
transfer between trader and pool. -/
def updatePoolForSwap (env : Env) (bank : BankState) (pool : Pool) (sender : String)
    (tokenIn tokenOut : Coin) : Except SwapErr BankState :=
  match sendCoins env bank sender pool.address tokenIn with
  | none => .error .transferFailed
  | some bank1 =>
    match sendCoins env bank1 pool.address sender tokenOut with
    | none => .error .transferFailed
    | some bank2 => .ok bank2

/-- `SwapExactAmountIn` (swaps.go lines 15-64): validates the denominations,
chooses the direction-dependent hard price limit, delegates to
`SwapOutAmtGivenIn`, applies the positive-output and minimum-output checks
and finally settles balances.  Returns the output amount together with the
resulting store and bank. -/
def SwapExactAmountIn (env : Env) (store : Store) (bank : BankState) (sender : String)
    (poolId : ℕ) (tokenIn : Coin) (tokenOutDenom : String) (tokenOutMinAmount : ℤ)
    (swapFee : ℚ) (fuel : ℕ) : Except SwapErr ℤ × Store × BankState :=
  if tokenIn.denom = tokenOutDenom then (.error .sameDenomTrade, store, bank)
  else
    match store poolId with
    | none => (.error .poolNotFound, store, bank)
    | some pool =>
      let zeroForOne := tokenIn.denom = pool.token0
      let priceLimit : ℚ := if zeroForOne then 1 else 999999999999
      match SwapOutAmtGivenIn env store tokenIn tokenOutDenom swapFee priceLimit poolId fuel with
      | (.error e, store') => (.error e, store', bank)
      | (.ok tokenOutCoin, store') =>
        if ¬ (0 < tokenOutCoin.amount) then (.error .nonPositiveOut, store', bank)
        else if tokenOutCoin.amount < tokenOutMinAmount then (.error .ltMinOut, store', bank)
        else
          match updatePoolForSwap env bank pool sender tokenIn tokenOutCoin with
          | .error e => (.error e, store', bank)
          | .ok bank' => (.ok tokenOutCoin.amount, store', bank')

/-- `SwapExactAmountOut` (swaps.go lines 66-76): the body is
`return sdk.Int{}, nil` — it unconditionally returns the zero-value
`sdk.Int` (embedded as `none`) and no error, ignoring every argument. -/
def SwapExactAmountOut (env : Env) (store : Store) (sender : String) (poolId : ℕ)
    (tokenInDenom : String) (tokenInMaxAmount : ℤ) (tokenOut : Coin) (swapFee : ℚ) :
    Option ℤ × Option SwapErr :=
  (none, none)

/-- The transient `SwapState` of the exact-out orchestrator
(`CalcInAmtGivenOut`, swaps.go lines 309-314): the struct literal omits the
`liquidity` field, so it carries the Go zero value of `sdk.Dec` — a nil
decimal — embedded as `Option ℚ` with `none` for nil. -/
structure SwapStateOut where
  amountSpecifiedRemaining : ℚ
  amountCalculated : ℚ
  sqrtPrice : ℚ
  tick : ℤ
  liquidity : Option ℚ
deriving DecidableEq, Repr

/-- The exact-out loop guard (swaps.go line 318): iterate while the
remaining specified amount exceeds `sdk.NewDecWithPrec(1, 6)`, i.e.
`0.000001`. -/
def calcInGuard (s : SwapStateOut) : Bool :=
  decide (epsExactOut < s.amountSpecifiedRemaining)

/-- Outcome of the exact-out loop: normal exit, an error return, or a Go
runtime fault from calling `Add` on a nil `sdk.Dec`. -/
inductive InLoopResult
  | done (s : SwapStateOut)
  | fail (e : SwapErr)
  | fault
deriving DecidableEq, Repr

/-- Outcome of one exact-out loop iteration. -/
inductive InStep
  | next (s : SwapStateOut)
  | fail (e : SwapErr)
  | fault
deriving DecidableEq, Repr

/-- One iteration of the exact-out loop body (swaps.go lines 319-361):
runs the swap-step calculator against the pre-loop liquidity estimate
`liq`, deducts the produced output, grosses the computed input up by the
fee, and — when the computed sqrt price equals the (never updated) working
sqrt price — crosses the tick: negating the delta when not zeroForOne,
adding it to the working liquidity (a fault when that liquidity is nil),
rejecting non-positive results, and stepping the tick. -/
def calcInIter (env : Env) (poolId pid : ℕ) (zeroForOne : Bool) (liq swapFee : ℚ)
    (s : SwapStateOut) : InStep :=
  match env.nextInitializedTick poolId s.tick zeroForOne with
  | none => .fail .noMoreTicks
  | some nextTick =>
    match env.tickToSqrtPrice nextTick with
    | none => .fail .tickToSqrtPriceFail
    | some nextSqrtPrice =>
      let step := env.computeSwapStep s.sqrtPrice nextSqrtPrice liq
        s.amountSpecifiedRemaining zeroForOne
      let sqrtPrice := step.1
      let amountIn := step.2.1
      let amountOut := step.2.2
      let s1 : SwapStateOut := { s with
        amountSpecifiedRemaining := s.amountSpecifiedRemaining - amountIn,
        amountCalculated := s.amountCalculated + amountOut / (1 - swapFee) }
      if s.sqrtPrice = sqrtPrice then
        match env.crossTick pid nextTick with
        | none => .fail .crossTickFail
        | some liquidityDeltaRaw =>
          let liquidityDelta := if !zeroForOne then -liquidityDeltaRaw else liquidityDeltaRaw
          match s1.liquidity with
          | none => .fault
          | some l =>
            let newLiquidity := l + liquidityDelta
            if newLiquidity ≤ 0 then .fail .noLiquidityAvailable
            else
              let newTick := if !zeroForOne then nextTick - 1 else nextTick
              .next { s1 with liquidity := some newLiquidity, tick := newTick }
      else
        .next { s1 with tick := env.priceToTick (sqrtPrice ^ 2) }

/-- The exact-out loop (swaps.go lines 318-362), fueled like the exact-in
loop. -/
def calcInLoop (env : Env) (poolId pid : ℕ) (zeroForOne : Bool) (liq swapFee : ℚ) :
    ℕ → SwapStateOut → InLoopResult
  | 0, s => if calcInGuard s then .fail .outOfFuel else .done s
  | fuel + 1, s =>
    if calcInGuard s then
      match calcInIter env poolId pid zeroForOne liq swapFee s with
      | .fail e => .fail e
      | .fault => .fault
      | .next s' => calcInLoop env poolId pid zeroForOne liq swapFee fuel s'
    else .done s

/-- Result of `CalcInAmtGivenOut`: the computed input coin plus the final
liquidity (possibly nil), tick and sqrt price; or an error; or a runtime
fault. -/
inductive CalcInResult
  | ok (tokenIn : Coin) (liquidity : Option ℚ) (tick : ℤ) (sqrtPrice : ℚ)
  | err (e : SwapErr)
  | fault
deriving DecidableEq, Repr

/-- `CalcInAmtGivenOut` (swaps.go lines 256-365): the exact-out
orchestrator.  Validates denominations and the user price band, derives a
liquidity estimate from hard-coded placeholder amounts, runs the loop, and
rounds the accumulated input to the nearest integer. -/
def CalcInAmtGivenOut (env : Env) (store : Store) (tokenOut : Coin) (tokenInDenom : String)
    (swapFee minPrice maxPrice : ℚ) (poolId : ℕ) (fuel : ℕ) : CalcInResult :=
  let tokenOutAmt : ℚ := (tokenOut.amount : ℚ)
  match store poolId with
  | none => .err .poolNotFound
  | some p =>
    let asset0 := p.token0
    let asset1 := p.token1
    let zeroForOne := tokenOut.denom = asset0
    let curSqrtPrice := p.currentSqrtPrice
    if tokenOut.denom ≠ asset0 ∧ tokenOut.denom ≠ asset1 then .err .tokenOutMismatch
    else if tokenInDenom ≠ asset0 ∧ tokenInDenom ≠ asset1 then .err .tokenInMismatch
    else if tokenOut.denom = tokenInDenom then .err .sameDenomCalc
    else if curSqrtPrice ^ 2 ≤ minPrice then .err .minPriceTooHigh
    else if maxPrice ≤ curSqrtPrice ^ 2 then .err .maxPriceTooLow
    else
      match env.approxSqrt minPrice with
      | none => .err .minPriceSqrtCalc
      | some sqrtPLowerTick =>
        match env.approxSqrt maxPrice with
        | none => .err .maxPriceSqrtCalc
        | some sqrtPUpperTick =>
          let amountETH : ℤ := 1000000
          let amountUSDC : ℤ := 5000000000
          let liq0 := env.liquidity0 amountETH curSqrtPrice sqrtPUpperTick
          let liq1 := env.liquidity1 amountUSDC curSqrtPrice sqrtPLowerTick
          let liq := min liq0 liq1
          let s0 : SwapStateOut := {
            amountSpecifiedRemaining := tokenOutAmt,
            amountCalculated := 0,
            sqrtPrice := curSqrtPrice,
            tick := env.priceToTick (curSqrtPrice ^ 2),
            liquidity := none }
          match calcInLoop env poolId p.id zeroForOne liq swapFee fuel s0 with
          | .fault => .fault
          | .fail e => .err e
          | .done s =>
            .ok ⟨tokenInDenom, bankersRoundInt s.amountCalculated⟩ s.liquidity s.tick s.sqrtPrice

/-- Outcome of `SwapInAmtGivenOut`: the input coin, an error, or a
propagated runtime fault. -/
inductive SwapInResult
  | ok (tokenIn : Coin)
  | err (e : SwapErr)
  | fault
deriving DecidableEq, Repr

/-- Modelled from the spec: writeback of a possibly-nil liquidity through
`pool.ApplySwap` (not under `src/`); the spec (§4.6) only defines the
initialized case, so nil is written back as zero liquidity. -/
def applySwapOptLiquidity (p : Pool) (newLiquidity : Option ℚ) (newTick : ℤ)
    (newSqrtPrice : ℚ) : Pool :=
  applySwap p (newLiquidity.getD 0) newTick newSqrtPrice

/-- `SwapInAmtGivenOut` (swaps.go lines 367-389): ignores the caller's
`minPrice` / `maxPrice` and always forwards the fixed band
`[sdk.ZeroDec(), sdk.NewDec(9999999999)]` to `CalcInAmtGivenOut`, then
commits the returned pool state. -/
def SwapInAmtGivenOut (env : Env) (store : Store) (tokenOut : Coin) (tokenInDenom : String)
    (swapFee minPrice maxPrice : ℚ) (poolId : ℕ) (fuel : ℕ) : SwapInResult × Store :=
  match CalcInAmtGivenOut env store tokenOut tokenInDenom swapFee 0 9999999999 poolId fuel with
  | .fault => (.fault, store)
  | .err e => (.err e, store)
  | .ok tokenInCoin newLiquidity newCurrentTick newCurrentSqrtPrice =>
    match store poolId with
    | none => (.err .poolNotFound, store)
    | some pool =>
      let pool' := applySwapOptLiquidity pool newLiquidity newCurrentTick newCurrentSqrtPrice
      (.ok tokenInCoin, setPool store pool')

/-- A concrete pool: eth/usdc, sqrt price 2 (price 4), tick 0, liquidity 10. -/
def poolA : Pool :=
  { id := 1, token0 := "eth", token1 := "usdc", currentSqrtPrice := 2,
    currentTick := 0, liquidity := 10, address := "pooladdr" }

/-- A store holding exactly `poolA` under id 1. -/
def storeA : Store := fun i => if i = 1 then some poolA else none

/-- Concrete environment A: the swap step always lands on sqrt price 1,
consuming 41/4 of the input and producing 5 output. -/
def envA : Env :=
  { nextInitializedTick := fun _ _ _ => some (-1),
    crossTick := fun _ _ => some 4,
    tickToSqrtPrice := fun _ => some (3/2),
    priceToTick := fun _ => 0,
    computeSwapStep := fun _ _ _ _ _ => (1, 41/4, 5),
    approxSqrt := fun q => if q = 1 then some 1 else none,
    minSqrtRatio := 0,
    maxSqrtRatio := 1000000,
    liquidity0 := fun _ _ _ => 1,
    liquidity1 := fun _ _ _ => 1,
    transferOk := fun _ _ _ => true }

/-- Concrete environment B: the swap step always lands exactly on the next
initialized tick's sqrt price 3/2, so the tick is crossed. -/
def envB : Env :=
  { envA with
    computeSwapStep := fun _ _ _ _ _ => (3/2, 7, 5) }

/-- Concrete environment C: the swap step always returns the current sqrt
price unchanged, so the exact-out tick-crossing branch is taken; square
roots are defined for the price band `[1, 100]`. -/
def envC : Env :=
  { envA with
    computeSwapStep := fun cur _ _ _ _ => (cur, 1, 1),
    approxSqrt := fun q => if q = 1 then some 1 else if q = 100 then some 10 else none }

/-- Concrete environment D: like C but with square roots defined for the
band `[0, 9999999999]` that `SwapInAmtGivenOut` hard-codes. -/
def envD : Env :=
  { envC with
    approxSqrt := fun q =>
      if q = 0 then some 0 else if q = 9999999999 then some 99999 else none }

/-- Concrete environment E: the square root of the price limit 4 is the
pool's current sqrt price 2. -/
def envE : Env :=
  { envA with
    approxSqrt := fun q => if q = 4 then some 2 else none }

/-- Modelled from the spec: the input-side capacity of one constant
liquidity segment — how much of the specified input moves the price from
`sqrtPriceCurrent` all the way to `sqrtPriceTarget` (§4.2).  For
zeroForOne (price decreasing, asset0 in) the segment holds
`L·(√Pc − √Pt)/(√Pc·√Pt)` of asset0; otherwise it holds `L·(√Pt − √Pc)`
of asset1. -/
def swapStepCapacity (sqrtPriceCurrent sqrtPriceTarget liquidity : ℚ) (zeroForOne : Bool) : ℚ :=
  if zeroForOne then
    liquidity * (sqrtPriceCurrent - sqrtPriceTarget) / (sqrtPriceCurrent * sqrtPriceTarget)
  else
    liquidity * (sqrtPriceTarget - sqrtPriceCurrent)

/-- Modelled from the spec: `types.ComputeSwapStep` is not under `src/`;
§4.2 specifies its behaviour (cap the price move at the target when the
remaining amount suffices to reach it, otherwise settle strictly between
current and target consuming the whole remaining amount), with the
constant-liquidity AMM relations `Δ(asset1) = L·Δ√P` and
`Δ(asset0) = L·Δ(1/√P)` re-derived as required. -/
def computeSwapStepModel (sqrtPriceCurrent sqrtPriceTarget liquidity amountRemaining : ℚ)
    (zeroForOne : Bool) : ℚ × ℚ × ℚ :=
  if zeroForOne then
    if swapStepCapacity sqrtPriceCurrent sqrtPriceTarget liquidity true ≤ amountRemaining then
      (sqrtPriceTarget, swapStepCapacity sqrtPriceCurrent sqrtPriceTarget liquidity true,
        liquidity * (sqrtPriceCurrent - sqrtPriceTarget))
    else
      let sqrtPriceNext := liquidity * sqrtPriceCurrent /
        (liquidity + amountRemaining * sqrtPriceCurrent)
      (sqrtPriceNext, amountRemaining, liquidity * (sqrtPriceCurrent - sqrtPriceNext))
  else
    if swapStepCapacity sqrtPriceCurrent sqrtPriceTarget liquidity false ≤ amountRemaining then
      (sqrtPriceTarget, swapStepCapacity sqrtPriceCurrent sqrtPriceTarget liquidity false,
        liquidity * (sqrtPriceTarget - sqrtPriceCurrent) / (sqrtPriceTarget * sqrtPriceCurrent))
    else
      let sqrtPriceNext := sqrtPriceCurrent + amountRemaining / liquidity
      (sqrtPriceNext, amountRemaining,
        liquidity * (sqrtPriceNext - sqrtPriceCurrent) / (sqrtPriceNext * sqrtPriceCurrent))

/-- Concrete environment G: the spec-modelled swap-step calculator with a
next tick below the price limit, so an exact-in swap is capped at the
limit and terminates. -/
def envG : Env :=
  { envA with
    computeSwapStep := computeSwapStepModel,
    approxSqrt := fun q => if q = 1 then some 1 else none,
    tickToSqrtPrice := fun _ => some (1/2) }

/-- The clamped target sqrt price of one exact-in iteration
(swaps.go lines 162-169): the next tick's sqrt price, clamped to the
caller's limit when it would overshoot it. -/
def targetExpr (nextSqrtPrice sqrtPriceLimit : ℚ) (zeroForOne : Bool) : ℚ :=
  if (zeroForOne && decide (nextSqrtPrice < sqrtPriceLimit))
      || (!zeroForOne && decide (sqrtPriceLimit < nextSqrtPrice)) then sqrtPriceLimit
  else nextSqrtPrice

/-- Direction-dependent validity of a swap-step invocation: the target and
working sqrt prices are strictly positive and ordered according to the
swap direction. -/
def dirOk (zeroForOne : Bool) (target sqrtPriceCurrent : ℚ) : Prop :=
  (zeroForOne = true → 0 < target ∧ target ≤ sqrtPriceCurrent) ∧
  (zeroForOne = false → 0 < sqrtPriceCurrent ∧ sqrtPriceCurrent ≤ target)

/-- Per-iteration validity conditions for the exact-in loop at state `s`:
positive working liquidity and a target sqrt price on the correct, strictly
positive side of the working sqrt price.  These are the well-formedness
conditions the spec imposes on pool data (§3: liquidity non-negative,
prices strictly positive; §4.2: the caller must never hand the step
calculator zero liquidity). -/
def calcOutStepChecks (env : Env) (poolId : ℕ) (zeroForOne : Bool) (sqrtPriceLimit : ℚ)
    (s : SwapState) : Bool :=
  match env.nextInitializedTick poolId s.tick zeroForOne with
  | none => true
  | some nextTick =>
    match env.tickToSqrtPrice nextTick with
    | none => true
    | some nextSqrtPrice =>
      let target := targetExpr nextSqrtPrice sqrtPriceLimit zeroForOne
      decide (0 < s.liquidity) &&
        (if zeroForOne then decide (0 < target) && decide (target ≤ s.sqrtPrice)
         else decide (0 < s.sqrtPrice) && decide (s.sqrtPrice ≤ target))

/-- The validity trace of an exact-in run: the per-iteration checks hold
at every state the loop visits. -/
def calcOutTraceOk (env : Env) (poolId pid : ℕ) (zeroForOne : Bool) (sqrtPriceLimit : ℚ) :
    ℕ → SwapState → Bool
  | 0, _ => true
  | fuel + 1, s =>
    if calcOutLoopCond s sqrtPriceLimit then
      calcOutStepChecks env poolId zeroForOne sqrtPriceLimit s &&
        (match calcOutIter env poolId pid zeroForOne sqrtPriceLimit s with
         | .error _ => true
         | .ok s' => calcOutTraceOk env poolId pid zeroForOne sqrtPriceLimit fuel s')
    else true

/-- Concrete environment F: the swap-step calculator is the spec-modelled
`computeSwapStepModel`. -/
def envF : Env :=
  { envA with
    computeSwapStep := computeSwapStepModel,
    approxSqrt := fun q => if q = 1 then some 1 else none }

theorem calcOutLoop_of_cond_false (env : Env) (poolId pid : ℕ) (zeroForOne : Bool)
    (sqrtPriceLimit : ℚ) (s : SwapState) (h : calcOutLoopCond s sqrtPriceLimit = false)
    (fuel : ℕ) : calcOutLoop env poolId pid zeroForOne sqrtPriceLimit fuel s = .ok s := by
  cases fuel <;> simp [calcOutLoop, h]

theorem bankersRoundInt_zero : bankersRoundInt 0 = 0 := by
  simp [bankersRoundInt]

theorem truncateInt_zero : truncateInt 0 = 0 := by
  simp [truncateInt]

theorem calcOutLoopCond_true_iff (s : SwapState) (lim : ℚ) :
    calcOutLoopCond s lim = true ↔
      epsExactIn < s.amountSpecifiedRemaining ∧ s.sqrtPrice ≠ lim := by
  simp [calcOutLoopCond]

theorem truncateInt_mono (a b : ℚ) (h : a ≤ b) : truncateInt a ≤ truncateInt b := by
  rw [truncateInt, truncateInt]
  by_cases ha : 0 ≤ a
  · rw [if_pos ha, if_pos (le_trans ha h)]
    exact Int.floor_mono h
  · rw [if_neg ha]
    by_cases hb : 0 ≤ b
    · rw [if_pos hb]
      calc ⌈a⌉ ≤ 0 := by
            exact_mod_cast Int.ceil_le.mpr (by exact_mod_cast le_of_lt (lt_of_not_le ha))
        _ ≤ ⌊b⌋ := Int.floor_nonneg.mpr hb
    · rw [if_neg hb]
      exact Int.ceil_mono h

theorem model_capped (Pc T L r : ℚ) (z : Bool)
    (h : swapStepCapacity Pc T L z ≤ r) :
    computeSwapStepModel Pc T L r z =
      (T, swapStepCapacity Pc T L z,
        if z then L * (Pc - T) else L * (T - Pc) / (T * Pc)) := by
  cases z <;> simp [computeSwapStepModel, h]

theorem model_uncapped_amountIn (Pc T L r : ℚ) (z : Bool)
    (h : ¬ swapStepCapacity Pc T L z ≤ r) :
    (computeSwapStepModel Pc T L r z).2.1 = r := by
  cases z <;> simp [computeSwapStepModel, h]

theorem model_out_nonneg_z (Pc T L r : ℚ) (hL : 0 < L) (hT : 0 < T) (hTP : T ≤ Pc)
    (hr : 0 ≤ r) : 0 ≤ (computeSwapStepModel Pc T L r true).2.2 := by
  have hPc : 0 < Pc := lt_of_lt_of_le hT hTP
  by_cases h : swapStepCapacity Pc T L true ≤ r
  · simp only [computeSwapStepModel, if_pos h, if_true]
    nlinarith
  · simp only [computeSwapStepModel, if_neg h, if_true]
    have hden : 0 < L + r * Pc := by nlinarith
    have key : Pc - L * Pc / (L + r * Pc) = r * Pc ^ 2 / (L + r * Pc) := by
      field_simp
      ring
    rw [key]
    positivity

theorem model_out_nonneg_o (Pc T L r : ℚ) (hL : 0 < L) (hPc : 0 < Pc) (hPT : Pc ≤ T)
    (hr : 0 ≤ r) : 0 ≤ (computeSwapStepModel Pc T L r false).2.2 := by
  have hT : 0 < T := lt_of_lt_of_le hPc hPT
  by_cases h : swapStepCapacity Pc T L false ≤ r
  · simp only [computeSwapStepModel, if_neg (Bool.false_ne_true), if_pos h]
    have h1 : 0 ≤ L * (T - Pc) := by nlinarith
    positivity
  · simp only [computeSwapStepModel, if_neg (Bool.false_ne_true), if_neg h]
    have hnp : 0 < Pc + r / L := by positivity
    rw [show Pc + r / L - Pc = r / L by ring]
    positivity

theorem model_out_mono_z (Pc T L r1 r2 : ℚ) (hL : 0 < L) (hT : 0 < T) (hTP : T ≤ Pc)
    (hr1 : 0 ≤ r1) (hr12 : r1 ≤ r2) :
    (computeSwapStepModel Pc T L r1 true).2.2 ≤ (computeSwapStepModel Pc T L r2 true).2.2 := by
  have hPc : 0 < Pc := lt_of_lt_of_le hT hTP
  have hr2 : 0 ≤ r2 := le_trans hr1 hr12
  have hden1 : 0 < L + r1 * Pc := by nlinarith
  have hden2 : 0 < L + r2 * Pc := by nlinarith
  by_cases h1 : swapStepCapacity Pc T L true ≤ r1
  · have h2 : swapStepCapacity Pc T L true ≤ r2 := le_trans h1 hr12
    simp only [computeSwapStepModel, if_pos h1, if_pos h2, if_true]
    exact le_rfl
  · by_cases h2 : swapStepCapacity Pc T L true ≤ r2
    · simp only [computeSwapStepModel, if_neg h1, if_pos h2, if_true]
      have hcap : r1 * (Pc * T) < L * (Pc - T) := by
        have h3 := lt_of_not_le h1
        rw [swapStepCapacity, if_pos rfl, lt_div_iff (by positivity)] at h3
        linarith
      have hnp : T ≤ L * Pc / (L + r1 * Pc) := by
        rw [le_div_iff hden1]
        nlinarith
      nlinarith [mul_le_mul_of_nonneg_left hnp hL.le]
    · simp only [computeSwapStepModel, if_neg h1, if_neg h2, if_true]
      have hnp : L * Pc / (L + r2 * Pc) ≤ L * Pc / (L + r1 * Pc) := by
        rw [div_le_div_iff hden2 hden1]
        have h3 : 0 ≤ r2 - r1 := sub_nonneg.mpr hr12
        nlinarith [mul_nonneg (mul_nonneg (mul_nonneg hL.le hPc.le) hPc.le) h3]
      nlinarith [mul_le_mul_of_nonneg_left hnp hL.le]

theorem model_out_mono_o (Pc T L r1 r2 : ℚ) (hL : 0 < L) (hPc : 0 < Pc) (hPT : Pc ≤ T)
    (hr1 : 0 ≤ r1) (hr12 : r1 ≤ r2) :
    (computeSwapStepModel Pc T L r1 false).2.2 ≤ (computeSwapStepModel Pc T L r2 false).2.2 := by
  have hT : 0 < T := lt_of_lt_of_le hPc hPT
  have hr2 : 0 ≤ r2 := le_trans hr1 hr12
  have hnp1 : 0 < Pc + r1 / L := by positivity
  have hnp2 : 0 < Pc + r2 / L := by positivity
  have hx1 : 0 ≤ r1 / L := by positivity
  have hx2 : 0 ≤ r2 / L := by positivity
  have e1 : L * (r1 / L) = r1 := by field_simp
  have e2 : L * (r2 / L) = r2 := by field_simp
  by_cases h1 : swapStepCapacity Pc T L false ≤ r1
  · have h2 : swapStepCapacity Pc T L false ≤ r2 := le_trans h1 hr12
    simp only [computeSwapStepModel, if_neg (Bool.false_ne_true), if_pos h1, if_pos h2]
    exact le_rfl
  · by_cases h2 : swapStepCapacity Pc T L false ≤ r2
    · simp only [computeSwapStepModel, if_neg (Bool.false_ne_true), if_neg h1, if_pos h2]
      have hcap : r1 < L * (T - Pc) := by
        have h3 := lt_of_not_le h1
        rw [swapStepCapacity, if_neg (Bool.false_ne_true)] at h3
        linarith
      have hnpT : Pc + r1 / L ≤ T := by
        have h4 : r1 / L < T - Pc := by
          rw [div_lt_iff hL]
          nlinarith
        linarith
      rw [div_le_div_iff (by positivity) (by positivity)]
      nlinarith [e1, mul_nonneg (mul_nonneg (mul_nonneg hL.le hPc.le) hPc.le)
        (sub_nonneg.mpr hnpT)]
    · simp only [computeSwapStepModel, if_neg (Bool.false_ne_true), if_neg h1, if_neg h2]
      rw [div_le_div_iff (by positivity) (by positivity)]
      have hx12 : r1 / L ≤ r2 / L := by
        gcongr
      nlinarith [e1, e2, mul_nonneg (mul_nonneg (mul_nonneg hL.le hPc.le) hPc.le)
        (sub_nonneg.mpr hx12)]

theorem model_uncapped_next_z (Pc T L r : ℚ) (hL : 0 < L) (hT : 0 < T) (hTP : T ≤ Pc)
    (hr : 0 ≤ r) (h : ¬ swapStepCapacity Pc T L true ≤ r) :
    T < (computeSwapStepModel Pc T L r true).1 ∧
      (computeSwapStepModel Pc T L r true).1 ≤ Pc := by
  have hPc : 0 < Pc := lt_of_lt_of_le hT hTP
  have hden : 0 < L + r * Pc := by nlinarith
  have hcap : r * (Pc * T) < L * (Pc - T) := by
    have h3 := lt_of_not_le h
    rw [swapStepCapacity, if_pos rfl, lt_div_iff (by positivity)] at h3
    linarith
  simp only [computeSwapStepModel, if_neg h, if_true]
  constructor
  · rw [lt_div_iff hden]
    nlinarith
  · rw [div_le_iff hden]
    nlinarith [mul_nonneg (mul_nonneg hr hPc.le) hPc.le]

theorem model_uncapped_next_o (Pc T L r : ℚ) (hL : 0 < L) (hPc : 0 < Pc) (hPT : Pc ≤ T)
    (hr : 0 ≤ r) (h : ¬ swapStepCapacity Pc T L false ≤ r) :
    Pc ≤ (computeSwapStepModel Pc T L r false).1 ∧
      (computeSwapStepModel Pc T L r false).1 < T := by
  have hcap : r < L * (T - Pc) := by
    have h3 := lt_of_not_le h
    rw [swapStepCapacity, if_neg (Bool.false_ne_true)] at h3
    linarith
  have hx : 0 ≤ r / L := by positivity
  simp only [computeSwapStepModel, if_neg (Bool.false_ne_true), if_neg h]
  constructor
  · linarith
  · have h4 : r / L < T - Pc := by
      rw [div_lt_iff hL]
      nlinarith
    linarith

theorem model_out_nonneg (Pc T L r : ℚ) (z : Bool) (hL : 0 < L)
    (hdir : dirOk z T Pc) (hr : 0 ≤ r) :
    0 ≤ (computeSwapStepModel Pc T L r z).2.2 := by
  cases z
  · exact model_out_nonneg_o Pc T L r hL (hdir.2 rfl).1 (hdir.2 rfl).2 hr
  · exact model_out_nonneg_z Pc T L r hL (hdir.1 rfl).1 (hdir.1 rfl).2 hr

theorem model_out_mono (Pc T L r1 r2 : ℚ) (z : Bool) (hL : 0 < L)
    (hdir : dirOk z T Pc) (hr1 : 0 ≤ r1) (hr12 : r1 ≤ r2) :
    (computeSwapStepModel Pc T L r1 z).2.2 ≤ (computeSwapStepModel Pc T L r2 z).2.2 := by
  cases z
  · exact model_out_mono_o Pc T L r1 r2 hL (hdir.2 rfl).1 (hdir.2 rfl).2 hr1 hr12
  · exact model_out_mono_z Pc T L r1 r2 hL (hdir.1 rfl).1 (hdir.1 rfl).2 hr1 hr12

theorem model_uncapped_ne_nsp (Pc L r lim nsp : ℚ) (z : Bool) (hL : 0 < L)
    (hdir : dirOk z (targetExpr nsp lim z) Pc)
    (hr : 0 ≤ r)
    (hcap : ¬ swapStepCapacity Pc (targetExpr nsp lim z) L z ≤ r) :
    nsp ≠ (computeSwapStepModel Pc (targetExpr nsp lim z) L r z).1 := by
  cases z
  · by_cases hc : lim < nsp
    · rw [show targetExpr nsp lim false = lim from by simp [targetExpr, hc]] at hdir hcap ⊢
      have hd := hdir.2 rfl
      have hb := model_uncapped_next_o Pc lim L r hL hd.1 hd.2 hr hcap
      intro he
      rw [← he] at hb
      exact absurd (lt_trans hc hb.2) (lt_irrefl lim)
    · rw [show targetExpr nsp lim false = nsp from by simp [targetExpr, hc]] at hdir hcap ⊢
      have hd := hdir.2 rfl
      have hb := model_uncapped_next_o Pc nsp L r hL hd.1 hd.2 hr hcap
      intro he
      rw [← he] at hb
      exact absurd hb.2 (lt_irrefl nsp)
  · by_cases hc : nsp < lim
    · rw [show targetExpr nsp lim true = lim from by simp [targetExpr, hc]] at hdir hcap ⊢
      have hd := hdir.1 rfl
      have hb := model_uncapped_next_z Pc lim L r hL hd.1 hd.2 hr hcap
      intro he
      rw [← he] at hb
      exact absurd (lt_trans hc hb.1) (lt_irrefl nsp)
    · rw [show targetExpr nsp lim true = nsp from by simp [targetExpr, hc]] at hdir hcap ⊢
      have hd := hdir.1 rfl
      have hb := model_uncapped_next_z Pc nsp L r hL hd.1 hd.2 hr hcap
      intro he
      rw [← he] at hb
      exact absurd hb.1 (lt_irrefl nsp)

theorem calcInIter_next_liquidity_none (env : Env) (poolId pid : ℕ) (zeroForOne : Bool)
    (liq swapFee : ℚ) (s s' : SwapStateOut) (hnil : s.liquidity = none)
    (h : calcInIter env poolId pid zeroForOne liq swapFee s = .next s') :
    s'.liquidity = none := by
  rw [calcInIter] at h
  rw [hnil] at h
  split at h
  · simp at h
  · rename_i nextTick hni
    split at h
    · simp at h
    · rename_i nsp hts
      split at h
      · rename_i hct
        by_cases hc : s.sqrtPrice =
            (env.computeSwapStep s.sqrtPrice nsp liq s.amountSpecifiedRemaining zeroForOne).1
        · rw [if_pos hc] at h
          simp at h
        · rw [if_neg hc] at h
          simp only [InStep.next.injEq] at h
          rw [← h]
      · rename_i delta hct
        by_cases hc : s.sqrtPrice =
            (env.computeSwapStep s.sqrtPrice nsp liq s.amountSpecifiedRemaining zeroForOne).1
        · rw [if_pos hc] at h
          simp at h
        · rw [if_neg hc] at h
          simp only [InStep.next.injEq] at h
          rw [← h]

theorem calcInIter_next_sqrtPrice (env : Env) (poolId pid : ℕ) (zeroForOne : Bool)
    (liq swapFee : ℚ) (s s' : SwapStateOut)
    (h : calcInIter env poolId pid zeroForOne liq swapFee s = .next s') :
    s'.sqrtPrice = s.sqrtPrice := by
  rw [calcInIter] at h
  split at h
  · simp at h
  · rename_i nextTick hni
    split at h
    · simp at h
    · rename_i nsp hts
      split at h
      · rename_i hct
        by_cases hc : s.sqrtPrice =
            (env.computeSwapStep s.sqrtPrice nsp liq s.amountSpecifiedRemaining zeroForOne).1
        · rw [if_pos hc] at h
          simp at h
        · rw [if_neg hc] at h
          simp only [InStep.next.injEq] at h
          rw [← h]
      · rename_i delta hct
        by_cases hc : s.sqrtPrice =
            (env.computeSwapStep s.sqrtPrice nsp liq s.amountSpecifiedRemaining zeroForOne).1
        · rw [if_pos hc] at h
          cases hl : s.liquidity with
          | none =>
            simp only [hl] at h
            simp at h
          | some l =>
            simp only [hl] at h
            by_cases hz : l + (if !zeroForOne then -delta else delta) ≤ 0
            · rw [if_pos hz] at h
              simp at h
            · rw [if_neg hz] at h
              simp only [InStep.next.injEq] at h
              rw [← h]
        · rw [if_neg hc] at h
          simp only [InStep.next.injEq] at h
          rw [← h]

theorem calcInLoop_liquidity_none (env : Env) (poolId pid : ℕ) (zeroForOne : Bool)
    (liq swapFee : ℚ) :
    ∀ (fuel : ℕ) (s s' : SwapStateOut), s.liquidity = none →
      calcInLoop env poolId pid zeroForOne liq swapFee fuel s = .done s' →
      s'.liquidity = none := by
  intro fuel
  induction fuel with
  | zero =>
    intro s s' hnil h
    rw [calcInLoop] at h
    split at h
    · simp at h
    · simp only [InLoopResult.done.injEq] at h
      rw [← h]
      exact hnil
  | succ fuel ih =>
    intro s s' hnil h
    rw [calcInLoop] at h
    split at h
    · split at h
      · simp at h
      · simp at h
      · rename_i s1 hs1
        exact ih s1 s' (calcInIter_next_liquidity_none env poolId pid zeroForOne liq swapFee s s1 hnil hs1) h
    · simp only [InLoopResult.done.injEq] at h
      rw [← h]
      exact hnil

theorem calcInLoop_sqrtPrice_const (env : Env) (poolId pid : ℕ) (zeroForOne : Bool)
    (liq swapFee : ℚ) :
    ∀ (fuel : ℕ) (s s' : SwapStateOut),
      calcInLoop env poolId pid zeroForOne liq swapFee fuel s = .done s' →
      s'.sqrtPrice = s.sqrtPrice := by
  intro fuel
  induction fuel with
  | zero =>
    intro s s' h
    rw [calcInLoop] at h
    split at h
    · simp at h
    · simp only [InLoopResult.done.injEq] at h
      rw [← h]
  | succ fuel ih =>
    intro s s' h
    rw [calcInLoop] at h
    split at h
    · split at h
      · simp at h
      · simp at h
      · rename_i s1 hs1
        rw [ih s1 s' h]
        exact calcInIter_next_sqrtPrice env poolId pid zeroForOne liq swapFee s s1 hs1
    · simp only [InLoopResult.done.injEq] at h
      rw [← h]

theorem calcOutIter_shape (env : Env) (poolId pid : ℕ) (z : Bool) (lim : ℚ) (s : SwapState)
    (nt : ℤ) (nsp : ℚ)
    (hni : env.nextInitializedTick poolId s.tick z = some nt)
    (hts : env.tickToSqrtPrice nt = some nsp) :
    calcOutIter env poolId pid z lim s =
      (let step := env.computeSwapStep s.sqrtPrice (targetExpr nsp lim z) s.liquidity
          s.amountSpecifiedRemaining z
       if nsp = step.1 then
         match env.crossTick pid nt with
         | none => .error .crossTickFail
         | some d =>
           .ok { amountSpecifiedRemaining := s.amountSpecifiedRemaining - step.2.1,
                 amountCalculated := s.amountCalculated + step.2.2,
                 sqrtPrice := step.1,
                 tick := if z then nt - 1 else nt,
                 liquidity := addLiquidity s.liquidity (if z then -d else d) }
       else if s.sqrtPrice ≠ step.1 then
         .ok { amountSpecifiedRemaining := s.amountSpecifiedRemaining - step.2.1,
               amountCalculated := s.amountCalculated + step.2.2,
               sqrtPrice := step.1,
               tick := env.priceToTick (step.1 ^ 2),
               liquidity := s.liquidity }
       else
         .ok { amountSpecifiedRemaining := s.amountSpecifiedRemaining - step.2.1,
               amountCalculated := s.amountCalculated + step.2.2,
               sqrtPrice := step.1,
               tick := s.tick,
               liquidity := s.liquidity }) := by
  rw [calcOutIter]
  simp only [hni, hts, targetExpr]

theorem calcOutIter_ok_parts (env : Env) (poolId pid : ℕ) (z : Bool) (lim : ℚ)
    (s s' : SwapState) (nt : ℤ) (nsp : ℚ)
    (hni : env.nextInitializedTick poolId s.tick z = some nt)
    (hts : env.tickToSqrtPrice nt = some nsp)
    (hok : calcOutIter env poolId pid z lim s = .ok s') :
    s'.amountCalculated = s.amountCalculated +
      (env.computeSwapStep s.sqrtPrice (targetExpr nsp lim z) s.liquidity
        s.amountSpecifiedRemaining z).2.2 ∧
    s'.amountSpecifiedRemaining = s.amountSpecifiedRemaining -
      (env.computeSwapStep s.sqrtPrice (targetExpr nsp lim z) s.liquidity
        s.amountSpecifiedRemaining z).2.1 ∧
    s'.sqrtPrice = (env.computeSwapStep s.sqrtPrice (targetExpr nsp lim z) s.liquidity
        s.amountSpecifiedRemaining z).1 := by
  rw [calcOutIter_shape env poolId pid z lim s nt nsp hni hts] at hok
  dsimp only at hok
  by_cases hx : nsp = (env.computeSwapStep s.sqrtPrice (targetExpr nsp lim z) s.liquidity
      s.amountSpecifiedRemaining z).1
  · rw [if_pos hx] at hok
    cases hct : env.crossTick pid nt with
    | none =>
      simp only [hct] at hok
      simp at hok
    | some d =>
      simp only [hct, Except.ok.injEq] at hok
      rw [← hok]
      exact ⟨rfl, rfl, rfl⟩
  · rw [if_neg hx] at hok
    by_cases hsp : s.sqrtPrice ≠ (env.computeSwapStep s.sqrtPrice (targetExpr nsp lim z)
        s.liquidity s.amountSpecifiedRemaining z).1
    · rw [if_pos hsp] at hok
      simp only [Except.ok.injEq] at hok
      rw [← hok]
      exact ⟨rfl, rfl, rfl⟩
    · rw [if_neg hsp] at hok
      simp only [Except.ok.injEq] at hok
      rw [← hok]
      exact ⟨rfl, rfl, rfl⟩

theorem stepChecks_decode (env : Env) (poolId : ℕ) (z : Bool) (lim : ℚ) (s : SwapState)
    (nt : ℤ) (nsp : ℚ)
    (hni : env.nextInitializedTick poolId s.tick z = some nt)
    (hts : env.tickToSqrtPrice nt = some nsp)
    (hch : calcOutStepChecks env poolId z lim s = true) :
    0 < s.liquidity ∧ dirOk z (targetExpr nsp lim z) s.sqrtPrice := by
  rw [calcOutStepChecks] at hch
  simp only [hni, hts] at hch
  cases z
  · rw [if_neg Bool.false_ne_true] at hch
    simp only [Bool.and_eq_true, decide_eq_true_eq] at hch
    exact ⟨hch.1, fun h => absurd h (by simp), fun _ => ⟨hch.2.1, hch.2.2⟩⟩
  · rw [if_pos rfl] at hch
    simp only [Bool.and_eq_true, decide_eq_true_eq] at hch
    exact ⟨hch.1, fun _ => ⟨hch.2.1, hch.2.2⟩, fun h => absurd h (by simp)⟩


theorem calcOutLoop_calc_le (env : Env) (poolId pid : ℕ) (z : Bool) (lim : ℚ)
    (henv : env.computeSwapStep = computeSwapStepModel) :
    ∀ (fuel : ℕ) (s t : SwapState),
      calcOutTraceOk env poolId pid z lim fuel s = true →
      calcOutLoop env poolId pid z lim fuel s = .ok t →
      s.amountCalculated ≤ t.amountCalculated := by
  intro fuel
  induction fuel with
  | zero =>
    intro s t htr hlp
    rw [calcOutLoop] at hlp
    split at hlp
    · simp at hlp
    · simp only [Except.ok.injEq] at hlp
      rw [← hlp]
  | succ fuel ih =>
    intro s t htr hlp
    rw [calcOutLoop] at hlp
    split at hlp
    · rename_i hg
      rw [calcOutTraceOk, if_pos hg, Bool.and_eq_true] at htr
      obtain ⟨hch, htr2⟩ := htr
      split at hlp
      · simp at hlp
      · rename_i s' heq
        simp only [heq] at htr2
        cases hni : env.nextInitializedTick poolId s.tick z with
        | none =>
          rw [calcOutIter] at heq
          simp [hni] at heq
        | some nt =>
          cases hts : env.tickToSqrtPrice nt with
          | none =>
            rw [calcOutIter] at heq
            simp [hni, hts] at heq
          | some nsp =>
            have parts := calcOutIter_ok_parts env poolId pid z lim s s' nt nsp hni hts heq
            have hdec := stepChecks_decode env poolId z lim s nt nsp hni hts hch
            have hg' := (calcOutLoopCond_true_iff s lim).mp hg
            have hrem : 0 ≤ s.amountSpecifiedRemaining :=
              le_of_lt (lt_trans (show (0 : ℚ) < epsExactIn by norm_num [epsExactIn]) hg'.1)
            have hout : 0 ≤ (env.computeSwapStep s.sqrtPrice (targetExpr nsp lim z)
                s.liquidity s.amountSpecifiedRemaining z).2.2 := by
              rw [henv]
              exact model_out_nonneg _ _ _ _ z hdec.1 hdec.2 hrem
            have h1 : s.amountCalculated ≤ s'.amountCalculated := by
              rw [parts.1]
              linarith
            exact le_trans h1 (ih s' t htr2 hlp)
    · simp only [Except.ok.injEq] at hlp
      rw [← hlp]



theorem calcOutIter_congr (env : Env) (poolId pid : ℕ) (z : Bool) (lim : ℚ)
    (s1 s2 s1' s2' : SwapState) (nt : ℤ) (nsp : ℚ)
    (hni1 : env.nextInitializedTick poolId s1.tick z = some nt)
    (hni2 : env.nextInitializedTick poolId s2.tick z = some nt)
    (hts : env.tickToSqrtPrice nt = some nsp)
    (hsp : s1.sqrtPrice = s2.sqrtPrice) (htk : s1.tick = s2.tick)
    (hlq : s1.liquidity = s2.liquidity)
    (hstep : env.computeSwapStep s1.sqrtPrice (targetExpr nsp lim z) s1.liquidity
        s1.amountSpecifiedRemaining z =
      env.computeSwapStep s2.sqrtPrice (targetExpr nsp lim z) s2.liquidity
        s2.amountSpecifiedRemaining z)
    (heq1 : calcOutIter env poolId pid z lim s1 = .ok s1')
    (heq2 : calcOutIter env poolId pid z lim s2 = .ok s2') :
    s1'.sqrtPrice = s2'.sqrtPrice ∧ s1'.tick = s2'.tick ∧ s1'.liquidity = s2'.liquidity := by
  rw [calcOutIter_shape env poolId pid z lim s1 nt nsp hni1 hts] at heq1
  rw [calcOutIter_shape env poolId pid z lim s2 nt nsp hni2 hts] at heq2
  dsimp only at heq1 heq2
  rw [← hstep, ← hsp, ← htk, ← hlq] at heq2
  by_cases hx : nsp = (env.computeSwapStep s1.sqrtPrice (targetExpr nsp lim z) s1.liquidity
      s1.amountSpecifiedRemaining z).1
  · rw [if_pos hx] at heq1 heq2
    cases hct : env.crossTick pid nt with
    | none =>
      simp only [hct] at heq1
      simp at heq1
    | some d =>
      simp only [hct, Except.ok.injEq] at heq1 heq2
      rw [← heq1, ← heq2]
      exact ⟨rfl, rfl, rfl⟩
  · rw [if_neg hx] at heq1 heq2
    by_cases hb : s1.sqrtPrice ≠ (env.computeSwapStep s1.sqrtPrice (targetExpr nsp lim z)
        s1.liquidity s1.amountSpecifiedRemaining z).1
    · rw [if_pos hb] at heq1 heq2
      simp only [Except.ok.injEq] at heq1 heq2
      rw [← heq1, ← heq2]
      exact ⟨rfl, rfl, rfl⟩
    · rw [if_neg hb] at heq1 heq2
      simp only [Except.ok.injEq] at heq1 heq2
      rw [← heq1, ← heq2]
      exact ⟨rfl, rfl, rfl⟩



theorem calcOutLoop_mono (env : Env) (poolId pid : ℕ) (z : Bool) (lim : ℚ)
    (henv : env.computeSwapStep = computeSwapStepModel) :
    ∀ (fuel2 fuel1 : ℕ) (s1 s2 t1 t2 : SwapState),
      s1.sqrtPrice = s2.sqrtPrice → s1.tick = s2.tick → s1.liquidity = s2.liquidity →
      s1.amountSpecifiedRemaining ≤ s2.amountSpecifiedRemaining →
      s1.amountCalculated ≤ s2.amountCalculated →
      calcOutLoop env poolId pid z lim fuel1 s1 = .ok t1 →
      calcOutLoop env poolId pid z lim fuel2 s2 = .ok t2 →
      calcOutTraceOk env poolId pid z lim fuel2 s2 = true →
      t1.amountCalculated ≤ t2.amountCalculated := by
  intro fuel2
  induction fuel2 with
  | zero =>
    intro fuel1 s1 s2 t1 t2 hsp htk hlq hrem hcal h1 h2 htr
    rw [calcOutLoop] at h2
    split at h2
    · simp at h2
    · rename_i hg2
      simp only [Except.ok.injEq] at h2
      have hg1 : calcOutLoopCond s1 lim = false := by
        rw [← Bool.not_eq_true]
        intro hg1t
        apply hg2
        rw [calcOutLoopCond_true_iff] at hg1t ⊢
        exact ⟨lt_of_lt_of_le hg1t.1 hrem, hsp ▸ hg1t.2⟩
      rw [calcOutLoop_of_cond_false env poolId pid z lim s1 hg1 fuel1] at h1
      simp only [Except.ok.injEq] at h1
      rw [← h1, ← h2]
      exact hcal
  | succ fuel2 ih =>
    intro fuel1 s1 s2 t1 t2 hsp htk hlq hrem hcal h1 h2 htr
    by_cases hg1 : calcOutLoopCond s1 lim = true
    · have hg2 : calcOutLoopCond s2 lim = true := by
        rw [calcOutLoopCond_true_iff] at hg1 ⊢
        exact ⟨lt_of_lt_of_le hg1.1 hrem, hsp ▸ hg1.2⟩
      cases fuel1 with
      | zero =>
        rw [calcOutLoop, if_pos hg1] at h1
        simp at h1
      | succ fuel1 =>
        rw [calcOutLoop, if_pos hg1] at h1
        rw [calcOutLoop, if_pos hg2] at h2
        rw [calcOutTraceOk, if_pos hg2, Bool.and_eq_true] at htr
        obtain ⟨hch, htr2⟩ := htr
        split at h1
        · simp at h1
        · rename_i s1' heq1
          split at h2
          · simp at h2
          · rename_i s2' heq2
            simp only [heq2] at htr2
            cases hni : env.nextInitializedTick poolId s1.tick z with
            | none =>
              rw [calcOutIter] at heq1
              simp [hni] at heq1
            | some nt =>
              have hni2 : env.nextInitializedTick poolId s2.tick z = some nt := htk ▸ hni
              cases hts : env.tickToSqrtPrice nt with
              | none =>
                rw [calcOutIter] at heq1
                simp [hni, hts] at heq1
              | some nsp =>
                have hdec := stepChecks_decode env poolId z lim s2 nt nsp hni2 hts hch
                have hL1 : 0 < s1.liquidity := hlq ▸ hdec.1
                have hdir1 : dirOk z (targetExpr nsp lim z) s1.sqrtPrice := by
                  rw [hsp]
                  exact hdec.2
                have hg1' := (calcOutLoopCond_true_iff s1 lim).mp hg1
                have hrem1 : 0 ≤ s1.amountSpecifiedRemaining :=
                  le_of_lt (lt_trans (show (0 : ℚ) < epsExactIn by norm_num [epsExactIn]) hg1'.1)
                have parts1 := calcOutIter_ok_parts env poolId pid z lim s1 s1' nt nsp hni hts heq1
                have parts2 := calcOutIter_ok_parts env poolId pid z lim s2 s2' nt nsp hni2 hts heq2
                by_cases hcap : swapStepCapacity s1.sqrtPrice (targetExpr nsp lim z)
                    s1.liquidity z ≤ s1.amountSpecifiedRemaining
                · have hcap2 : swapStepCapacity s1.sqrtPrice (targetExpr nsp lim z)
                      s1.liquidity z ≤ s2.amountSpecifiedRemaining := le_trans hcap hrem
                  have hstep1 : env.computeSwapStep s1.sqrtPrice (targetExpr nsp lim z)
                      s1.liquidity s1.amountSpecifiedRemaining z =
                      (targetExpr nsp lim z,
                       swapStepCapacity s1.sqrtPrice (targetExpr nsp lim z) s1.liquidity z,
                       if z then s1.liquidity * (s1.sqrtPrice - targetExpr nsp lim z)
                       else s1.liquidity * (targetExpr nsp lim z - s1.sqrtPrice) /
                         (targetExpr nsp lim z * s1.sqrtPrice)) := by
                    rw [henv]
                    exact model_capped _ _ _ _ z hcap
                  have hstep2 : env.computeSwapStep s2.sqrtPrice (targetExpr nsp lim z)
                      s2.liquidity s2.amountSpecifiedRemaining z =
                      (targetExpr nsp lim z,
                       swapStepCapacity s1.sqrtPrice (targetExpr nsp lim z) s1.liquidity z,
                       if z then s1.liquidity * (s1.sqrtPrice - targetExpr nsp lim z)
                       else s1.liquidity * (targetExpr nsp lim z - s1.sqrtPrice) /
                         (targetExpr nsp lim z * s1.sqrtPrice)) := by
                    rw [henv, ← hsp, ← hlq]
                    exact model_capped _ _ _ _ z hcap2
                  have hstep := hstep1.trans hstep2.symm
                  have hcongr := calcOutIter_congr env poolId pid z lim s1 s2 s1' s2' nt nsp
                    hni hni2 hts hsp htk hlq hstep heq1 heq2
                  have hin : (env.computeSwapStep s1.sqrtPrice (targetExpr nsp lim z)
                      s1.liquidity s1.amountSpecifiedRemaining z).2.1 =
                      (env.computeSwapStep s2.sqrtPrice (targetExpr nsp lim z)
                        s2.liquidity s2.amountSpecifiedRemaining z).2.1 := by
                    rw [hstep]
                  have hout : (env.computeSwapStep s1.sqrtPrice (targetExpr nsp lim z)
                      s1.liquidity s1.amountSpecifiedRemaining z).2.2 =
                      (env.computeSwapStep s2.sqrtPrice (targetExpr nsp lim z)
                        s2.liquidity s2.amountSpecifiedRemaining z).2.2 := by
                    rw [hstep]
                  apply ih fuel1 s1' s2' t1 t2 hcongr.1 hcongr.2.1 hcongr.2.2 ?_ ?_ h1 h2 htr2
                  · rw [parts1.2.1, parts2.2.1, ← hin]
                    linarith
                  · rw [parts1.1, parts2.1, ← hout]
                    linarith
                · have hinr : (env.computeSwapStep s1.sqrtPrice (targetExpr nsp lim z)
                      s1.liquidity s1.amountSpecifiedRemaining z).2.1 =
                      s1.amountSpecifiedRemaining := by
                    rw [henv]
                    exact model_uncapped_amountIn _ _ _ _ z hcap
                  have hrem0 : s1'.amountSpecifiedRemaining = 0 := by
                    rw [parts1.2.1, hinr]
                    ring
                  have hg1f : calcOutLoopCond s1' lim = false := by
                    rw [← Bool.not_eq_true]
                    rw [calcOutLoopCond_true_iff]
                    rintro ⟨hlt, _⟩
                    rw [hrem0] at hlt
                    norm_num [epsExactIn] at hlt
                  rw [calcOutLoop_of_cond_false env poolId pid z lim s1' hg1f fuel1] at h1
                  simp only [Except.ok.injEq] at h1
                  have hfut := calcOutLoop_calc_le env poolId pid z lim henv fuel2 s2' t2 htr2 h2
                  have hmono : (env.computeSwapStep s1.sqrtPrice (targetExpr nsp lim z)
                      s1.liquidity s1.amountSpecifiedRemaining z).2.2 ≤
                      (env.computeSwapStep s2.sqrtPrice (targetExpr nsp lim z)
                        s2.liquidity s2.amountSpecifiedRemaining z).2.2 := by
                    rw [henv, ← hsp, ← hlq]
                    exact model_out_mono _ _ _ _ _ z hL1 hdir1 hrem1 hrem
                  rw [← h1]
                  have hc1 := parts1.1
                  have hc2 := parts2.1
                  have : s1'.amountCalculated ≤ s2'.amountCalculated := by
                    rw [hc1, hc2]
                    linarith
                  exact le_trans this hfut
    · have hg1' : calcOutLoopCond s1 lim = false := (Bool.not_eq_true _).mp hg1
      rw [calcOutLoop_of_cond_false env poolId pid z lim s1 hg1' fuel1] at h1
      simp only [Except.ok.injEq] at h1
      have hfut := calcOutLoop_calc_le env poolId pid z lim henv (fuel2 + 1) s2 t2 htr h2
      rw [← h1]
      exact le_trans hcal hfut

/-- C1: in the exact-in orchestrator, whenever a swap step's resulting
sqrt price exactly equals the next initialized tick's sqrt price, the
working liquidity after the crossing equals the pre-cross working
liquidity plus the signed net-liquidity delta stored at that tick (delta
negated when zeroForOne), and the working tick becomes `nextTick - 1` when
zeroForOne and `nextTick` otherwise. -/
theorem calcOutIter_tick_cross (env : Env) (poolId pid : ℕ) (zeroForOne : Bool)
    (sqrtPriceLimit : ℚ) (s : SwapState) (nextTick : ℤ) (nextSqrtPrice sp ai ao delta : ℚ)
    (hni : env.nextInitializedTick poolId s.tick zeroForOne = some nextTick)
    (hts : env.tickToSqrtPrice nextTick = some nextSqrtPrice)
    (hstep : env.computeSwapStep s.sqrtPrice
        (if (zeroForOne && decide (nextSqrtPrice < sqrtPriceLimit))
            || (!zeroForOne && decide (sqrtPriceLimit < nextSqrtPrice)) then sqrtPriceLimit
         else nextSqrtPrice) s.liquidity s.amountSpecifiedRemaining zeroForOne = (sp, ai, ao))
    (hcross : nextSqrtPrice = sp)
    (hct : env.crossTick pid nextTick = some delta) :
    calcOutIter env poolId pid zeroForOne sqrtPriceLimit s =
      .ok { amountSpecifiedRemaining := s.amountSpecifiedRemaining - ai,
            amountCalculated := s.amountCalculated + ao,
            sqrtPrice := sp,
            tick := if zeroForOne then nextTick - 1 else nextTick,
            liquidity := s.liquidity + (if zeroForOne then -delta else delta) } := by
  rw [calcOutIter]
  simp only [hni, hts, hstep, hct, addLiquidity]
  rw [if_pos hcross]

/-- Witness for C1: a concrete crossing run (zeroForOne, tick delta 4
negated, working tick moves to nextTick - 1 = -2, liquidity 10 - 4 = 6). -/
theorem calcOutIter_tick_cross_witness :
    calcOutIter envB 1 1 true 1 ⟨42, 0, 2, 0, 10⟩ =
      .ok { amountSpecifiedRemaining := 42 - 7,
            amountCalculated := 0 + 5,
            sqrtPrice := 3/2,
            tick := if true then (-1 : ℤ) - 1 else -1,
            liquidity := 10 + (if true then -(4 : ℚ) else 4) } := by
  exact calcOutIter_tick_cross envB 1 1 true 1 ⟨42, 0, 2, 0, 10⟩ (-1) (3/2) (3/2) 7 5 4
    rfl rfl rfl rfl rfl

/-- C5 counterexample: the claim says both loops stop at the same epsilon
`1e-7`; but the exact-out guard is false at remaining `5e-7`, which still
exceeds `1e-7`, so the exact-out loop does not iterate exactly while the
remaining amount exceeds `1e-7`. -/
theorem calcInGuard_not_epsExactIn :
    ¬ (calcInGuard ⟨5/10000000, 0, 2, 0, none⟩ = true ↔
        epsExactIn < (5/10000000 : ℚ)) := by
  simp only [calcInGuard, epsExactOut, epsExactIn]
  norm_num

/-- C5 (amended): the exact-in loop iterates exactly while the remaining
amount exceeds `1e-7` and the working sqrt price has not reached the
limit, while the exact-out loop iterates exactly while the remaining
amount exceeds `1e-6`. -/
theorem loop_guards_characterization :
    (∀ (s : SwapState) (lim : ℚ), calcOutLoopCond s lim = true ↔
        epsExactIn < s.amountSpecifiedRemaining ∧ s.sqrtPrice ≠ lim) ∧
    (∀ t : SwapStateOut, calcInGuard t = true ↔
        epsExactOut < t.amountSpecifiedRemaining) := by
  constructor
  · intro s lim
    simp [calcOutLoopCond]
  · intro t
    simp [calcInGuard]

/-- C6: `SwapExactAmountOut` is an unimplemented stub — for every input it
returns the zero-value `sdk.Int` with no error, instead of the input
amount computed by the exact-out mirror algorithm. -/
theorem swapExactAmountOut_stub (env : Env) (store : Store) (sender : String) (poolId : ℕ)
    (tokenInDenom : String) (tokenInMaxAmount : ℤ) (tokenOut : Coin) (swapFee : ℚ) :
    SwapExactAmountOut env store sender poolId tokenInDenom tokenInMaxAmount tokenOut swapFee =
      (none, none) :=
  rfl

/-- C10: `SwapInAmtGivenOut` is independent of its `minPrice` and
`maxPrice` parameters — any two calls differing only in the price band
return the same result and the same updated store, because the fixed band
`[0, 9999999999]` is always forwarded to `CalcInAmtGivenOut`. -/
theorem swapInAmtGivenOut_ignores_price_band (env : Env) (store : Store) (tokenOut : Coin)
    (tokenInDenom : String) (swapFee minPrice1 maxPrice1 minPrice2 maxPrice2 : ℚ)
    (poolId fuel : ℕ) :
    SwapInAmtGivenOut env store tokenOut tokenInDenom swapFee minPrice1 maxPrice1 poolId fuel =
      SwapInAmtGivenOut env store tokenOut tokenInDenom swapFee minPrice2 maxPrice2 poolId fuel :=
  rfl

/-- C3: on a run consuming an input of `41/4` (after-fee input 42 minus
remaining 127/4), `CalcOutAmtGivenIn` returns realized input 10 — the
bankers-rounded value — although the exact consumed amount is `10.25` and
its round-up is 11, so the trader is under-charged, contradicting the
stated round-up behaviour (the output is truncated down as stated). -/
theorem calcOutAmtGivenIn_roundInt_undercharges :
    CalcOutAmtGivenIn envA storeA ⟨"eth", 42⟩ "usdc" 0 1 1 1 =
      .ok ⟨⟨"eth", 10⟩, ⟨"usdc", 5⟩, 0, 10, 1⟩ ∧
    bankersRoundInt ((42 : ℚ) - 127/4) = 10 ∧
    ((10 : ℚ) < (42 : ℚ) - 127/4) ∧
    ⌈(42 : ℚ) - 127/4⌉ = 11 := by
  refine ⟨?_, ?_, by norm_num, ?_⟩
  · norm_num [CalcOutAmtGivenIn, storeA, poolA, envA, calcOutLoop, calcOutIter,
      calcOutLoopCond, epsExactIn, bankersRoundInt, truncateInt, addLiquidity]
    intro h
    simp at h
  · norm_num [bankersRoundInt]
  · norm_num [Int.ceil_eq_iff]

/-- C2: `SwapExactAmountIn` can return an error while the pool's persisted
state has already been changed: on this run the minimum-output check fails
after `SwapOutAmtGivenIn` has committed the pool via `ApplySwap`/`setPool`,
so the stored pool's sqrt price is 1 although it was 2 at call entry. -/
theorem swapExactAmountIn_error_after_commit :
    (SwapExactAmountIn envA storeA [] "alice" 1 ⟨"eth", 42⟩ "usdc" 100 0 1).1 =
      .error .ltMinOut ∧
    ((SwapExactAmountIn envA storeA [] "alice" 1 ⟨"eth", 42⟩ "usdc" 100 0 1).2.1 1) =
      some (applySwap poolA 10 0 1) ∧
    (applySwap poolA 10 0 1).currentSqrtPrice = 1 ∧
    poolA.currentSqrtPrice = 2 := by
  refine ⟨?_, ?_, rfl, rfl⟩
  · norm_num [SwapExactAmountIn, SwapOutAmtGivenIn, CalcOutAmtGivenIn, storeA, poolA, envA,
      calcOutLoop, calcOutIter, calcOutLoopCond, epsExactIn, bankersRoundInt, truncateInt,
      addLiquidity, applySwap, setPool]
    repeat' first
      | (intro h; simp at h)
      | rfl
  · norm_num [SwapExactAmountIn, SwapOutAmtGivenIn, CalcOutAmtGivenIn, storeA, poolA, envA,
      calcOutLoop, calcOutIter, calcOutLoopCond, epsExactIn, bankersRoundInt, truncateInt,
      addLiquidity, applySwap, setPool]
    repeat' first
      | (intro h; simp at h)
      | rfl

/-- C4: when the sqrt of the caller's price limit equals the pool's
current sqrt price (and the other preconditions hold), the exact-in loop
never runs — for every fuel the call returns zero realized input, zero
realized output, and the pool's current tick, liquidity and sqrt price. -/
theorem calcOutAmtGivenIn_limit_at_current (env : Env) (store : Store) (tokenInMin : Coin)
    (tokenOutDenom : String) (swapFee priceLimit : ℚ) (poolId fuel : ℕ) (p : Pool)
    (hp : store poolId = some p)
    (hsqrt : env.approxSqrt priceLimit = some p.currentSqrtPrice)
    (hin : tokenInMin.denom = p.token0 ∨ tokenInMin.denom = p.token1)
    (hout : tokenOutDenom = p.token0 ∨ tokenOutDenom = p.token1)
    (hne : tokenInMin.denom ≠ tokenOutDenom)
    (hmin : env.minSqrtRatio ≤ p.currentSqrtPrice)
    (hmax : p.currentSqrtPrice ≤ env.maxSqrtRatio)
    (htick : p.currentTick = env.priceToTick (p.currentSqrtPrice ^ 2)) :
    CalcOutAmtGivenIn env store tokenInMin tokenOutDenom swapFee priceLimit poolId fuel =
      .ok ⟨⟨tokenInMin.denom, 0⟩, ⟨tokenOutDenom, 0⟩, p.currentTick, p.liquidity,
        p.currentSqrtPrice⟩ := by
  rw [CalcOutAmtGivenIn]
  simp only [hp, hsqrt]
  rw [if_neg ?hlimit]
  case hlimit =>
    rintro (⟨_, h | h⟩ | ⟨_, h | h⟩)
    · exact lt_irrefl _ h
    · exact absurd h (not_lt.mpr hmin)
    · exact lt_irrefl _ h
    · exact absurd h (not_lt.mpr hmax)
  rw [if_neg ?hinok]
  case hinok =>
    rintro ⟨h0, h1⟩
    rcases hin with h | h
    · exact h0 h
    · exact h1 h
  rw [if_neg ?houtok]
  case houtok =>
    rintro ⟨h0, h1⟩
    rcases hout with h | h
    · exact h0 h
    · exact h1 h
  rw [if_neg hne]
  rw [calcOutLoop_of_cond_false env poolId p.id _ p.currentSqrtPrice _
    (by simp [calcOutLoopCond]) fuel]
  simp only [sub_self, bankersRoundInt_zero, truncateInt_zero, ← htick]

/-- Witness for C4: a concrete pool (sqrt price 2, price limit 4) where
the call returns immediately with zero amounts and unchanged state. -/
theorem calcOutAmtGivenIn_limit_at_current_witness :
    CalcOutAmtGivenIn envE storeA ⟨"eth", 42⟩ "usdc" 0 4 1 3 =
      .ok ⟨⟨"eth", 0⟩, ⟨"usdc", 0⟩, poolA.currentTick, poolA.liquidity,
        poolA.currentSqrtPrice⟩ := by
  exact calcOutAmtGivenIn_limit_at_current envE storeA ⟨"eth", 42⟩ "usdc" 0 4 1 3 poolA
    rfl rfl (Or.inl rfl) (Or.inr rfl) (by simp) (by norm_num [envE, envA, poolA])
    (by norm_num [envE, envA, poolA]) rfl

/-- C8 counterexample: a run of `CalcInAmtGivenOut` that reaches the
tick-crossing branch evaluates `Add` on the uninitialized (nil) working
liquidity and faults. -/
theorem calcInAmtGivenOut_nil_liquidity_fault :
    CalcInAmtGivenOut envC storeA ⟨"eth", 5⟩ "usdc" 0 1 100 1 1 = .fault := by
  norm_num [CalcInAmtGivenOut, storeA, poolA, envC, envA, calcInLoop, calcInIter,
    calcInGuard, epsExactOut, bankersRoundInt]
  repeat' first
    | (intro h; simp at h)
    | rfl

/-- C8 (amended): the `SwapState` of `CalcInAmtGivenOut` never initializes
its liquidity before the tick-crossing branch reads it — the liquidity
stays nil on every path, so every successful call returns a nil liquidity
(and a reached crossing faults rather than computing). -/
theorem calcInAmtGivenOut_ok_liquidity_none (env : Env) (store : Store) (tokenOut : Coin)
    (tokenInDenom : String) (swapFee minPrice maxPrice : ℚ) (poolId fuel : ℕ)
    (c : Coin) (lq : Option ℚ) (t : ℤ) (sp : ℚ)
    (h : CalcInAmtGivenOut env store tokenOut tokenInDenom swapFee minPrice maxPrice poolId
        fuel = .ok c lq t sp) :
    lq = none := by
  rw [CalcInAmtGivenOut] at h
  split at h
  · simp at h
  · rename_i p hp
    dsimp only at h
    split at h
    · simp at h
    · split at h
      · simp at h
      · split at h
        · simp at h
        · split at h
          · simp at h
          · split at h
            · simp at h
            · split at h
              · simp at h
              · split at h
                · simp at h
                · split at h
                  · simp at h
                  · simp at h
                  · rename_i s hloop
                    simp only [CalcInResult.ok.injEq] at h
                    rcases h with ⟨_, hlq, _, _⟩
                    rw [← hlq]
                    exact calcInLoop_liquidity_none env poolId p.id _ _ swapFee fuel _ s rfl hloop

/-- Witness for C8's amended theorem: a successful zero-output call whose
returned liquidity is nil. -/
theorem calcInAmtGivenOut_ok_liquidity_none_witness :
    CalcInAmtGivenOut envC storeA ⟨"eth", 0⟩ "usdc" 0 1 100 1 5 =
      .ok ⟨"usdc", 0⟩ none 0 2 ∧ (none : Option ℚ) = none := by
  constructor
  · norm_num [CalcInAmtGivenOut, storeA, poolA, envC, envA, calcInLoop, calcInIter,
      calcInGuard, epsExactOut, bankersRoundInt, truncateInt]
    repeat' first
      | (intro h; simp at h)
      | rfl
  · exact calcInAmtGivenOut_ok_liquidity_none envC storeA ⟨"eth", 0⟩ "usdc" 0 1 100 1 5
      ⟨"usdc", 0⟩ none 0 2 (by
        norm_num [CalcInAmtGivenOut, storeA, poolA, envC, envA, calcInLoop, calcInIter,
          calcInGuard, epsExactOut, bankersRoundInt, truncateInt]
        repeat' first
          | (intro h; simp at h)
          | rfl)

/-- C9: every successful `CalcInAmtGivenOut` call returns a sqrt price
equal to the pool's current sqrt price at call entry — the exact-out loop
never advances the working sqrt price. -/
theorem calcInAmtGivenOut_sqrtPrice_frame (env : Env) (store : Store) (tokenOut : Coin)
    (tokenInDenom : String) (swapFee minPrice maxPrice : ℚ) (poolId fuel : ℕ) (p : Pool)
    (c : Coin) (lq : Option ℚ) (t : ℤ) (sp : ℚ)
    (hp : store poolId = some p)
    (h : CalcInAmtGivenOut env store tokenOut tokenInDenom swapFee minPrice maxPrice poolId
        fuel = .ok c lq t sp) :
    sp = p.currentSqrtPrice := by
  rw [CalcInAmtGivenOut] at h
  simp only [hp] at h
  split at h
  · simp at h
  · split at h
    · simp at h
    · split at h
      · simp at h
      · split at h
        · simp at h
        · split at h
          · simp at h
          · split at h
            · simp at h
            · split at h
              · simp at h
              · split at h
                · simp at h
                · simp at h
                · rename_i s hloop
                  simp only [CalcInResult.ok.injEq] at h
                  rcases h with ⟨_, _, _, hsp⟩
                  rw [← hsp]
                  exact calcInLoop_sqrtPrice_const env poolId p.id _ _ swapFee fuel _ s hloop

/-- Witness for C9: a successful call on the concrete pool returns sqrt
price 2, the pool's current sqrt price. -/
theorem calcInAmtGivenOut_sqrtPrice_frame_witness :
    CalcInAmtGivenOut envC storeA ⟨"eth", 0⟩ "usdc" 0 1 100 1 3 =
      .ok ⟨"usdc", 0⟩ none 0 2 ∧ (2 : ℚ) = poolA.currentSqrtPrice := by
  constructor
  · norm_num [CalcInAmtGivenOut, storeA, poolA, envC, envA, calcInLoop, calcInIter,
      calcInGuard, epsExactOut, bankersRoundInt, truncateInt]
    repeat' first
      | (intro h; simp at h)
      | rfl
  · exact calcInAmtGivenOut_sqrtPrice_frame envC storeA ⟨"eth", 0⟩ "usdc" 0 1 100 1 3 poolA
      ⟨"usdc", 0⟩ none 0 2 rfl (by
        norm_num [CalcInAmtGivenOut, storeA, poolA, envC, envA, calcInLoop, calcInIter,
          calcInGuard, epsExactOut, bankersRoundInt, truncateInt]
        repeat' first
          | (intro h; simp at h)
          | rfl)

/-- C7: for every pool state and every pair of exact-in swaps identical
except for the input amount, a smaller-or-equal tokenIn amount yields a
smaller-or-equal realized tokenOut amount, under the spec-modelled swap
step calculator, a fee of at most 1, and well-formed pool/tick data along
the larger run (positive working liquidity, targets on the correct side). -/
theorem calcOutAmtGivenIn_monotone (env : Env) (store : Store) (d tokenOutDenom : String)
    (a1 a2 : ℤ) (swapFee priceLimit sqrtLimit : ℚ) (poolId fuel1 fuel2 : ℕ) (p : Pool)
    (r1 r2 : CalcOutResult)
    (henv : env.computeSwapStep = computeSwapStepModel)
    (hp : store poolId = some p)
    (hsl : env.approxSqrt priceLimit = some sqrtLimit)
    (hfee : swapFee ≤ 1)
    (ha : a1 ≤ a2)
    (h1 : CalcOutAmtGivenIn env store ⟨d, a1⟩ tokenOutDenom swapFee priceLimit poolId fuel1 =
      .ok r1)
    (h2 : CalcOutAmtGivenIn env store ⟨d, a2⟩ tokenOutDenom swapFee priceLimit poolId fuel2 =
      .ok r2)
    (htrace : calcOutTraceOk env poolId p.id (decide (d = p.token0)) sqrtLimit fuel2
      { amountSpecifiedRemaining := (a2 : ℚ) * (1 - swapFee), amountCalculated := 0,
        sqrtPrice := p.currentSqrtPrice, tick := env.priceToTick (p.currentSqrtPrice ^ 2),
        liquidity := p.liquidity } = true) :
    r1.tokenOut.amount ≤ r2.tokenOut.amount := by
  rw [CalcOutAmtGivenIn] at h1 h2
  simp only [hp, hsl] at h1 h2
  dsimp only at h1 h2
  split at h1
  · simp at h1
  · rename_i hc1
    rw [if_neg hc1] at h2
    split at h1
    · simp at h1
    · rename_i hc2
      rw [if_neg hc2] at h2
      split at h1
      · simp at h1
      · rename_i hc3
        rw [if_neg hc3] at h2
        split at h1
        · simp at h1
        · rename_i hc4
          rw [if_neg hc4] at h2
          split at h1
          · simp at h1
          · rename_i st1 hloop1
            split at h2
            · simp at h2
            · rename_i st2 hloop2
              simp only [Except.ok.injEq] at h1 h2
              have hcast : (a1 : ℚ) ≤ (a2 : ℚ) := by exact_mod_cast ha
              have hremle : (a1 : ℚ) * (1 - swapFee) ≤ (a2 : ℚ) * (1 - swapFee) :=
                mul_le_mul_of_nonneg_right hcast (by linarith)
              have hst := calcOutLoop_mono env poolId p.id (decide (d = p.token0)) sqrtLimit
                henv fuel2 fuel1
                { amountSpecifiedRemaining := (a1 : ℚ) * (1 - swapFee), amountCalculated := 0,
                  sqrtPrice := p.currentSqrtPrice,
                  tick := env.priceToTick (p.currentSqrtPrice ^ 2), liquidity := p.liquidity }
                { amountSpecifiedRemaining := (a2 : ℚ) * (1 - swapFee), amountCalculated := 0,
                  sqrtPrice := p.currentSqrtPrice,
                  tick := env.priceToTick (p.currentSqrtPrice ^ 2), liquidity := p.liquidity }
                st1 st2 rfl rfl rfl hremle le_rfl hloop1 hloop2 htrace
              rw [← h1, ← h2]
              exact truncateInt_mono _ _ hst

/-- Witness for C7: with the spec-modelled step calculator, input 0 yields
output 0 while input 42 yields output 10 on the same pool. -/
theorem calcOutAmtGivenIn_monotone_witness :
    CalcOutAmtGivenIn envG storeA ⟨"eth", 42⟩ "usdc" 0 1 1 1 =
      .ok ⟨⟨"eth", 5⟩, ⟨"usdc", 10⟩, 0, 10, 1⟩ ∧
    ((⟨⟨"eth", 0⟩, ⟨"usdc", 0⟩, 0, 10, 2⟩ : CalcOutResult).tokenOut.amount ≤
      (⟨⟨"eth", 5⟩, ⟨"usdc", 10⟩, 0, 10, 1⟩ : CalcOutResult).tokenOut.amount) := by
  have h2 : CalcOutAmtGivenIn envG storeA ⟨"eth", 42⟩ "usdc" 0 1 1 1 =
      .ok ⟨⟨"eth", 5⟩, ⟨"usdc", 10⟩, 0, 10, 1⟩ := by
    norm_num [CalcOutAmtGivenIn, storeA, poolA, envG, envA, calcOutLoop, calcOutIter,
      calcOutLoopCond, epsExactIn, bankersRoundInt, truncateInt, addLiquidity,
      computeSwapStepModel, swapStepCapacity]
    repeat' first
      | (intro h; simp at h)
      | rfl
  have h1 : CalcOutAmtGivenIn envG storeA ⟨"eth", 0⟩ "usdc" 0 1 1 1 =
      .ok ⟨⟨"eth", 0⟩, ⟨"usdc", 0⟩, 0, 10, 2⟩ := by
    norm_num [CalcOutAmtGivenIn, storeA, poolA, envG, envA, calcOutLoop, calcOutIter,
      calcOutLoopCond, epsExactIn, bankersRoundInt, truncateInt, addLiquidity,
      computeSwapStepModel, swapStepCapacity]
    repeat' first
      | (intro h; simp at h)
      | rfl
  have htrace : calcOutTraceOk envG 1 poolA.id (decide ("eth" = poolA.token0)) 1 1
      { amountSpecifiedRemaining := ((42 : ℤ) : ℚ) * (1 - 0), amountCalculated := 0,
        sqrtPrice := poolA.currentSqrtPrice,
        tick := envG.priceToTick (poolA.currentSqrtPrice ^ 2),
        liquidity := poolA.liquidity } = true := by
    norm_num [calcOutTraceOk, calcOutStepChecks, calcOutLoopCond, calcOutIter, targetExpr,
      epsExactIn, computeSwapStepModel, swapStepCapacity, envG, envA, poolA, addLiquidity]
  exact ⟨h2, calcOutAmtGivenIn_monotone envG storeA "eth" "usdc" 0 42 0 1 1 1 1 1 poolA
    ⟨⟨"eth", 0⟩, ⟨"usdc", 0⟩, 0, 10, 2⟩ ⟨⟨"eth", 5⟩, ⟨"usdc", 10⟩, 0, 10, 1⟩
    rfl rfl rfl (by norm_num) (by norm_num) h1 h2 htrace⟩

end Osmosis
